import Mathlib

set_option maxHeartbeats 1000000
set_option maxRecDepth 4000

/-!
Verification development for the SuzieQ MCP server (src/server.py).

The server is a thin HTTP bridge.  Its helper `_query_suzieq_api` builds a
request URL from a verb and table, injects the configured API key under
`access_token` and a `format=json` flag into the caller-supplied parameter
dictionary, performs one GET, and maps the outcome to a result mapping.  Two
tool wrappers (`run_suzieq_show`, `run_suzieq_summarize`) normalise a
non-dict `filters` argument to `None` and serialise the result with
`json.dumps(result, indent=2, ensure_ascii=False)`.

The embedding below makes the effects explicit: Python dictionaries become
ordered association lists with Python assignment semantics (`dictSet`), the
network becomes an `HttpOutcome` value supplied as an input, the in-place
mutation of the caller's dictionary becomes an explicit `callerParams` field
of the call result, and exceptions become values (every branch of the source
catches its exceptions and returns a mapping, so the embedded functions are
total).  The Python stdlib `json` module is not part of the repository, so
`dumps`/`loads` are modelled from the spec as an executable serialiser and
parser over the JSON value type `PyObj`.
-/

namespace SuzieqMCP

/-- Model of a Python JSON-compatible value as handled by the server: decoded
SuzieQ API bodies, filter dictionaries, and result mappings.  Dictionaries
keep insertion order, as Python dicts do.  The extra constructor `nonser`
stands for a Python object that the `json` module cannot serialise; it is
used to state the serialisation-failure defence of the tool wrappers. -/
inductive PyObj where
  | null : PyObj
  | bool : Bool → PyObj
  | int : Int → PyObj
  | str : String → PyObj
  | arr : List PyObj → PyObj
  | obj : List (String × PyObj) → PyObj
  | nonser : String → PyObj

/-- A Python dict with string keys, in insertion order. -/
abbrev Filters := List (String × PyObj)

/-- Python dict lookup: the first (and in a real dict, only) binding of a key. -/
def dictLookup (d : Filters) (k : String) : Option PyObj :=
  match d with
  | [] => none
  | (k2, v) :: t => if k2 = k then some v else dictLookup t k

/-- Python dict item assignment `d[k] = v`: overwrite in place if the key is
present (keeping its position), otherwise append at the end. -/
def dictSet (d : Filters) (k : String) (v : PyObj) : Filters :=
  match d with
  | [] => [(k, v)]
  | (k2, v2) :: t => if k2 = k then (k2, v) :: t else (k2, v2) :: dictSet t k v

/-- The module-level configuration read from the environment at start-up:
`SUZIEQ_API_ENDPOINT` and `SUZIEQ_API_KEY`, each absent (`None`) when unset. -/
structure Config where
  endpoint : Option String
  apiKey : Option String

/-- Python truthiness of an optional string, as tested by
`if not SUZIEQ_API_ENDPOINT or not SUZIEQ_API_KEY`: `None` and the empty
string are falsy. -/
def strOptTruthy : Option String → Bool
  | none => false
  | some s => !s.isEmpty

/-- The observable part of an httpx response: status code, the value of the
`content-type` header (empty string when absent, as `headers.get` defaults),
and the body text. -/
structure Response where
  status_code : Nat
  contentType : String
  text : String

/-- The outcome of the single outbound GET, supplied as an input to the
embedding: a response, an `httpx.RequestError` (connection, DNS, timeout),
or any other unexpected exception, each carrying the exception text. -/
inductive HttpOutcome where
  | success : Response → HttpOutcome
  | requestError : String → HttpOutcome
  | otherError : String → HttpOutcome

/-- The outbound request the helper issues by `client.get` with the URL, the
empty headers, the query parameters, and the 30-second timeout. -/
structure Request where
  method : String
  url : String
  params : Filters
  timeoutSecs : Nat

/-- The full observable effect of one `_query_suzieq_api` call: the returned
mapping, the request issued (if any), and the contents of the caller-supplied
parameter dictionary after the call (capturing the in-place mutation through
the `query_params = params` aliasing; `none` when the caller passed `None`). -/
structure CallResult where
  result : PyObj
  request : Option Request
  callerParams : Option Filters

/- ## Character-level utilities for the modelled json module -/

/-- JSON insignificant whitespace. -/
def isWs (c : Char) : Bool :=
  c = ' ' || c = '\n' || c = '\t' || c = '\r'

/-- Drop leading whitespace. -/
def skipWs : List Char → List Char
  | [] => []
  | c :: t => if isWs c then skipWs t else c :: t

/-- Whether every character of a list is whitespace. -/
def allWs (l : List Char) : Bool := l.all isWs

/-- ASCII decimal digit test. -/
def isDigitChar (c : Char) : Bool := 48 ≤ c.toNat && c.toNat ≤ 57

/-- The ASCII digit for a value below ten. -/
def digitChar (d : Nat) : Char := Char.ofNat (48 + d)

/-- Decimal rendering of a natural number, most significant digit first. -/
def natChars (n : Nat) : List Char :=
  if _h : n < 10 then [digitChar n]
  else natChars (n / 10) ++ [digitChar (n % 10)]
termination_by n
decreasing_by exact Nat.div_lt_self (by omega) (by norm_num)

/-- Decimal rendering of an integer. -/
def intChars (n : Int) : List Char :=
  if n < 0 then '-' :: natChars n.natAbs else natChars n.natAbs

/-- JSON string escaping for one character.  With `ensure_ascii=False` the
serialiser leaves every character other than the quote and the backslash
unescaped. -/
def escapeChar (c : Char) : List Char :=
  if c = '"' then ['\\', '"'] else if c = '\\' then ['\\', '\\'] else [c]

/-- JSON string escaping for a character list. -/
def escList : List Char → List Char
  | [] => []
  | c :: t => escapeChar c ++ escList t

/-- A JSON string token: opening quote, escaped body, closing quote. -/
def quoteChars (cs : List Char) : List Char := '"' :: (escList cs ++ ['"'])

/-- A JSON string token as a `String`. -/
def quoteStr (s : String) : String := ⟨quoteChars s.data⟩

/-- The whitespace an `indent=2` serialiser emits before a nested element. -/
def indentChars (ind : Nat) : List Char := List.replicate (2 * ind) ' '

/-- The opening brace character. -/
def lbraceC : Char := Char.ofNat 123

/-- The closing brace character. -/
def rbraceC : Char := Char.ofNat 125

mutual

/-- Modelled from the spec: the text `json.dumps(v, indent=2,
ensure_ascii=False)` produces at nesting level `ind` (the Python `json`
module is outside the repository).  Multi-line output with two-space
indentation per level, `", "`-free item separators (a comma then a newline
and the next level's indent), `": "` after keys, and non-ASCII characters
preserved unescaped, as §4.1 of the spec describes.  Numbers are modelled
as integers.  The `nonser` constructor is never serialised (see `dumps`);
its equation here is arbitrary. -/
def dumpsChars : Nat → PyObj → List Char
  | _, .null => ['n', 'u', 'l', 'l']
  | _, .bool true => ['t', 'r', 'u', 'e']
  | _, .bool false => ['f', 'a', 'l', 's', 'e']
  | _, .int n => intChars n
  | _, .str s => quoteChars s.data
  | _, .nonser _ => ['n', 'u', 'l', 'l']
  | _, .arr [] => ['[', ']']
  | ind, .arr (x :: t) =>
      '[' :: '\n' :: (indentChars (ind + 1) ++
        (dumpsSeq (ind + 1) x t ++ ('\n' :: (indentChars ind ++ [']']))))
  | _, .obj [] => [lbraceC, rbraceC]
  | ind, .obj ((k, v) :: t) =>
      lbraceC :: '\n' :: (indentChars (ind + 1) ++
        (dumpsMem (ind + 1) k v t ++ ('\n' :: (indentChars ind ++ [rbraceC]))))
termination_by _i v => sizeOf v
decreasing_by all_goals (simp_wf <;> omega)

/-- The serialised items of a non-empty array, commas and inner indentation
included, outer brackets excluded. -/
def dumpsSeq : Nat → PyObj → List PyObj → List Char
  | ind, x, [] => dumpsChars ind x
  | ind, x, y :: t =>
      dumpsChars ind x ++ (',' :: '\n' :: (indentChars ind ++ dumpsSeq ind y t))
termination_by _i x t => sizeOf x + sizeOf t
decreasing_by all_goals (simp_wf <;> omega)

/-- The serialised members of a non-empty object, commas and inner
indentation included, outer braces excluded. -/
def dumpsMem : Nat → String → PyObj → List (String × PyObj) → List Char
  | ind, k, v, [] => quoteChars k.data ++ (':' :: ' ' :: dumpsChars ind v)
  | ind, k, v, (k2, v2) :: t =>
      quoteChars k.data ++ (':' :: ' ' ::
        (dumpsChars ind v ++ (',' :: '\n' :: (indentChars ind ++ dumpsMem ind k2 v2 t))))
termination_by _i _k v t => sizeOf v + sizeOf t
decreasing_by all_goals (simp_wf <;> omega)

end

mutual

/-- Whether `json.dumps` accepts the value: `true` exactly when no `nonser`
object occurs in it. -/
def serializable : PyObj → Bool
  | .arr xs => serializableList xs
  | .obj ms => serializableMems ms
  | .nonser _ => false
  | _ => true
termination_by v => sizeOf v
decreasing_by all_goals (simp_wf <;> omega)

/-- `serializable` over the elements of a list. -/
def serializableList : List PyObj → Bool
  | [] => true
  | v :: t => serializable v && serializableList t
termination_by t => sizeOf t
decreasing_by all_goals (simp_wf <;> omega)

/-- `serializable` over the values of members. -/
def serializableMems : List (String × PyObj) → Bool
  | [] => true
  | (_, v) :: t => serializable v && serializableMems t
termination_by t => sizeOf t
decreasing_by all_goals (simp_wf <;> omega)

end

/-- Modelled from the spec: `json.dumps(v, indent=2, ensure_ascii=False)`,
returning `none` where Python raises `TypeError` (a non-serialisable object
inside `v`). -/
def dumps (v : PyObj) : Option String :=
  if serializable v then some ⟨dumpsChars 0 v⟩ else none

/- ## The modelled json parser (`json.loads`) -/

/-- Consume an expected literal character sequence. -/
def expectChars : List Char → List Char → Option (List Char)
  | [], l => some l
  | _ :: _, [] => none
  | e :: es, c :: l => if c = e then expectChars es l else none

/-- JSON escape resolution for the character after a backslash. -/
def unescChar (c : Char) : Option Char :=
  if c = '"' then some '"'
  else if c = '\\' then some '\\'
  else if c = '/' then some '/'
  else if c = 'n' then some '\n'
  else if c = 't' then some '\t'
  else if c = 'r' then some '\r'
  else if c = 'b' then some (Char.ofNat 8)
  else if c = 'f' then some (Char.ofNat 12)
  else none

/-- Parse the body of a JSON string after its opening quote, returning the
decoded characters and the remainder after the closing quote. -/
def parseStrChars : List Char → Option (List Char × List Char)
  | [] => none
  | c :: t =>
    if c = '"' then some ([], t)
    else if c = '\\' then
      match t with
      | [] => none
      | e :: t2 =>
        match unescChar e with
        | some u =>
          match parseStrChars t2 with
          | some (s, r) => some (u :: s, r)
          | none => none
        | none => none
    else
      match parseStrChars t with
      | some (s, r) => some (c :: s, r)
      | none => none

/-- Consume a maximal run of decimal digits, accumulating their value. -/
def parseDigits : List Char → Nat → Nat × List Char
  | [], acc => (acc, [])
  | c :: t, acc =>
    if isDigitChar c then parseDigits t (acc * 10 + (c.toNat - 48))
    else (acc, c :: t)

mutual

/-- Modelled from the spec: the JSON text reader (`json.loads`), restricted
to the grammar the modelled serialiser emits (integers for numbers, the
eight common string escapes).  Leading whitespace is skipped; `fuel` bounds
the recursion depth and is instantiated with the input length plus one. -/
def parseVal : Nat → List Char → Option (PyObj × List Char)
  | 0, _ => none
  | fuel + 1, l =>
    match skipWs l with
    | [] => none
    | c :: r =>
      if c = 'n' then
        match expectChars ['u', 'l', 'l'] r with
        | some r2 => some (PyObj.null, r2)
        | none => none
      else if c = 't' then
        match expectChars ['r', 'u', 'e'] r with
        | some r2 => some (PyObj.bool true, r2)
        | none => none
      else if c = 'f' then
        match expectChars ['a', 'l', 's', 'e'] r with
        | some r2 => some (PyObj.bool false, r2)
        | none => none
      else if c = '"' then
        match parseStrChars r with
        | some (s, r2) => some (PyObj.str ⟨s⟩, r2)
        | none => none
      else if c = '[' then
        let r2 := skipWs r
        if r2.head? = some ']' then some (PyObj.arr [], r2.tail)
        else
          match parseItems fuel r2 with
          | some (vs, r3) => some (PyObj.arr vs, r3)
          | none => none
      else if c = lbraceC then
        let r2 := skipWs r
        if r2.head? = some rbraceC then some (PyObj.obj [], r2.tail)
        else
          match parseMembers fuel r2 with
          | some (ms, r3) => some (PyObj.obj ms, r3)
          | none => none
      else if c = '-' then
        match r with
        | [] => none
        | c2 :: _ =>
          if isDigitChar c2 then
            let p := parseDigits r 0
            some (PyObj.int (-(p.1 : Int)), p.2)
          else none
      else if isDigitChar c then
        let p := parseDigits (c :: r) 0
        some (PyObj.int ((p.1 : Nat) : Int), p.2)
      else none

/-- Parse the items of a non-empty array, consuming the closing bracket. -/
def parseItems : Nat → List Char → Option (List PyObj × List Char)
  | 0, _ => none
  | fuel + 1, l =>
    match parseVal fuel l with
    | none => none
    | some (v, r) =>
      let r2 := skipWs r
      if r2.head? = some ',' then
        match parseItems fuel r2.tail with
        | some (vs, r3) => some (v :: vs, r3)
        | none => none
      else if r2.head? = some ']' then some ([v], r2.tail)
      else none

/-- Parse the members of a non-empty object, consuming the closing brace. -/
def parseMembers : Nat → List Char → Option (List (String × PyObj) × List Char)
  | 0, _ => none
  | fuel + 1, l =>
    match skipWs l with
    | [] => none
    | c :: r =>
      if c = '"' then
        match parseStrChars r with
        | none => none
        | some (k, r2) =>
          let r3 := skipWs r2
          if r3.head? = some ':' then
            match parseVal fuel r3.tail with
            | none => none
            | some (v, r4) =>
              let r5 := skipWs r4
              if r5.head? = some ',' then
                match parseMembers fuel r5.tail with
                | some (ms, r6) => some ((⟨k⟩, v) :: ms, r6)
                | none => none
              else if r5.head? = some rbraceC then some ([(⟨k⟩, v)], r5.tail)
              else none
          else none
      else none

end

/-- Modelled from the spec: `json.loads`, accepting trailing whitespace
only, as Python does. -/
def loads (s : String) : Option PyObj :=
  match parseVal (s.length + 1) s.data with
  | some (v, r) => if skipWs r = [] then some v else none
  | none => none

/- ## Cost of a value to the fuelled parser -/

mutual

/-- An upper bound on the recursion depth `parseVal` needs to read back the
serialised form of a value. -/
def costV : PyObj → Nat
  | .arr [] => 1
  | .arr (x :: t) => 1 + costSeq x t
  | .obj [] => 1
  | .obj ((_, v) :: t) => 1 + costMem v t
  | _ => 1
termination_by v => sizeOf v
decreasing_by all_goals (simp_wf <;> omega)

/-- Parser cost of a non-empty array's items. -/
def costSeq : PyObj → List PyObj → Nat
  | x, [] => 1 + costV x
  | x, y :: t => 1 + costV x + costSeq y t
termination_by x t => sizeOf x + sizeOf t
decreasing_by all_goals (simp_wf <;> omega)

/-- Parser cost of a non-empty object's members. -/
def costMem : PyObj → List (String × PyObj) → Nat
  | v, [] => 1 + costV v
  | v, (_, v2) :: t => 1 + costV v + costMem v2 t
termination_by v t => sizeOf v + sizeOf t
decreasing_by all_goals (simp_wf <;> omega)

end

/-- Whether a character list does not start with a digit, so that a number
parsed right before it cannot absorb its head. -/
def digitBoundary : List Char → Bool
  | [] => true
  | c :: _ => !isDigitChar c

/-- The boundary condition a value's serialised form needs on the text that
follows it: only numbers constrain it. -/
def numBoundary : PyObj → List Char → Bool
  | .int _, rest => digitBoundary rest
  | _, _ => true

/- ## Substring utilities (for the content-type check) -/

/-- Whether the first list is a prefix of the second. -/
def prefixChars : List Char → List Char → Bool
  | [], _ => true
  | _ :: _, [] => false
  | a :: as, b :: bs => a = b && prefixChars as bs

/-- Whether the first list occurs contiguously inside the second. -/
def infixChars : List Char → List Char → Bool
  | needle, [] => needle.isEmpty
  | needle, h :: t => prefixChars needle (h :: t) || infixChars needle t

/-- The source's content-type test: `'application/json' in content_type`. -/
def ctContainsJson (ct : String) : Bool :=
  infixChars ("application/json").data ct.data

/- ## The server embedding (src/server.py) -/

/-- A single-key error mapping, the failure shape of every error branch. -/
def errObj (m : String) : PyObj := .obj [("error", .str m)]

/-- A single-key warning mapping, the empty-success shape. -/
def warnObj (m : String) : PyObj := .obj [("warning", .str m)]

/-- The configuration error text of src/server.py line 39. -/
def configErrorMsg : String :=
  "SuzieQ API endpoint or key not configured. Set SUZIEQ_API_ENDPOINT and SUZIEQ_API_KEY environment variables or in .env file."

/-- Model of `str(e)` for the `json.JSONDecodeError` branch; the claims do
not depend on its content. -/
def decodeErrText : String := "Expecting value: line 1 column 1 (char 0)"

/-- Model of `str(e)` for the `TypeError` raised by a failing `json.dumps`;
the claims do not depend on its content. -/
def typeErrText : String := "Object is not JSON serializable"

/-- Python `SUZIEQ_API_ENDPOINT.rstrip('/')`: remove all trailing slashes. -/
def rstripSlash (s : String) : String :=
  ⟨(s.data.reverse.dropWhile (fun c => c = '/')).reverse⟩

/-- Lines 50-52 of src/server.py: `query_params["access_token"] = key` then
`query_params["format"] = "json"`, with Python assignment semantics. -/
def injectParams (key : String) (d : Filters) : Filters :=
  dictSet (dictSet d "access_token" (.str key)) "format" (.str "json")

/-- Line 50: `query_params = params if params else ...` makes a fresh empty
dict when `params` is falsy — that is, `None` or the empty dict — while a
non-empty dict is used as-is (aliased, hence the mutation captured by
`callerAfterParams`). -/
def baseParams : Option Filters → Filters
  | none => []
  | some d => if d.isEmpty then [] else d

/-- The contents of the caller's dictionary object after the call: untouched
when the caller passed `None` or an empty dict (the helper worked on a fresh
dict), and the injected dictionary otherwise (the helper wrote through the
alias). -/
def callerAfterParams (qp : Filters) : Option Filters → Option Filters
  | none => none
  | some d => if d.isEmpty then some d else some qp

/-- The GET request the helper issues once configuration is present: the
trimmed endpoint with the table and verb path segments appended, the
injected parameter dictionary, and the 30-second timeout of line 60. -/
def requestOf (cfg : Config) (verb table : String) (params : Option Filters) : Request :=
  { method := "GET",
    url := rstripSlash (cfg.endpoint.getD "") ++ "/" ++ table ++ "/" ++ verb,
    params := injectParams (cfg.apiKey.getD "") (baseParams params),
    timeoutSecs := 30 }

/-- How httpx renders one primitive parameter value into the query string
(percent-encoding is not modelled; the claims use URL-safe values). -/
def renderPrim : PyObj → String
  | .str s => s
  | .int n => toString n
  | .bool b => cond b "true" "false"
  | _ => ""

/-- One `key=value` fragment per primitive; a list value repeats the key. -/
def renderPair (k : String) (v : PyObj) : List String :=
  match v with
  | .arr xs => xs.map (fun x => k ++ "=" ++ renderPrim x)
  | _ => [k ++ "=" ++ renderPrim v]

/-- The query string httpx builds from the parameter dictionary. -/
def renderQuery (ps : Filters) : String :=
  String.intercalate "&" (List.flatten (ps.map (fun p => renderPair p.1 p.2)))

/-- The full URL of a request, query string included. -/
def fullUrl (r : Request) : String := r.url ++ "?" ++ renderQuery r.params

/-- The message of the `httpx.HTTPStatusError` branch (line 75). -/
def httpErrMsg (code : Nat) (body : String) : String :=
  "HTTP error occurred: " ++ toString code ++ " - " ++ body

/-- The 204 warning message (line 65). -/
def emptyWarnMsg (verb table : String) : String :=
  "Received empty response (204 No Content) from SuzieQ API for " ++ verb ++ " " ++ table

/-- The unexpected-content-type message (line 71). -/
def ctErrMsg (ct body : String) : String :=
  "Unexpected content type received: " ++ ct ++ ". Response text: " ++ body

/-- The JSON-decode-failure message (line 83). -/
def decodeErrMsg (body : String) : String :=
  "Failed to decode JSON response from SuzieQ API: " ++ decodeErrText ++ ". Response text: " ++ body

/-- The transport-error message (line 79); the `!r` rendering of
`e.request.url` is modelled as the full URL text. -/
def requestErrMsg (url msg : String) : String :=
  "An error occurred while requesting " ++ url ++ ": " ++ msg

/-- The catch-all message (line 87). -/
def unexpectedErrMsg (msg : String) : String :=
  "An unexpected error occurred: " ++ msg

/-- Embedding of `_query_suzieq_api` (src/server.py lines 25-89).  The
`outcome` argument supplies what the network did; `raise_for_status` is
modelled per the spec as raising exactly on a 4xx/5xx status, which the
`HTTPStatusError` handler turns into an error mapping.  Logging is ignored.
Note the source checks the 204 status only after `raise_for_status`, which a
204 (a success status) passes. -/
def querySuzieqApi (cfg : Config) (verb table : String) (params : Option Filters)
    (outcome : HttpOutcome) : CallResult :=
  if !(strOptTruthy cfg.endpoint) || !(strOptTruthy cfg.apiKey) then
    { result := errObj configErrorMsg, request := none, callerParams := params }
  else
    let req := requestOf cfg verb table params
    let callerAfter : Option Filters := callerAfterParams req.params params
    let res : PyObj :=
      match outcome with
      | .success resp =>
        if 400 ≤ resp.status_code then
          errObj (httpErrMsg resp.status_code resp.text)
        else if resp.status_code = 204 then
          warnObj (emptyWarnMsg verb table)
        else if ctContainsJson resp.contentType then
          match loads resp.text with
          | some body => body
          | none => errObj (decodeErrMsg resp.text)
        else
          errObj (ctErrMsg resp.contentType resp.text)
      | .requestError msg => errObj (requestErrMsg (fullUrl req) msg)
      | .otherError msg => errObj (unexpectedErrMsg msg)
    { result := res, request := some req, callerParams := callerAfter }

/-- The `isinstance(filters, dict)` test of the tool wrappers. -/
def isDictVal : PyObj → Bool
  | .obj _ => true
  | _ => false

/-- Lines 107 and 136: `actual_filters = filters if isinstance(filters, dict)
else None`.  The wrapper's `filters` argument is modelled as an arbitrary
Python value or `None`. -/
def actualFilters : Option PyObj → Option Filters
  | some (.obj kvs) => some kvs
  | _ => none

/-- The serialisation-failure message of the tool wrappers (lines 116/145). -/
def serErrMsg (toolName : String) : String :=
  "Error serializing SuzieQ \x27" ++ toolName ++ "\x27 response to JSON: " ++ typeErrText

/-- The compact fallback `json.dumps(\x7b"error": m\x7d)` text (default
separators, no indent); always well-formed JSON by construction. -/
def serErrJson (m : String) : String :=
  "\x7b\"error\": " ++ quoteStr m ++ "\x7d"

/-- The serialisation step of a tool wrapper: `json.dumps(result, indent=2,
ensure_ascii=False)`, falling back to a compact single-key error document
when serialisation raises `TypeError`. -/
def serializeResult (toolName : String) (v : PyObj) : String :=
  match dumps v with
  | some s => s
  | none => serErrJson (serErrMsg toolName)

/-- What a tool call produces: the JSON text handed back to the framework
and the underlying helper call (kept so that theorems can speak about the
request and the mutation). -/
structure ToolResult where
  output : String
  call : CallResult

/-- Embedding of the `run_suzieq_show` tool (src/server.py lines 92-118). -/
def runSuzieqShow (cfg : Config) (table : String) (filters : Option PyObj)
    (outcome : HttpOutcome) : ToolResult :=
  let call := querySuzieqApi cfg "show" table (actualFilters filters) outcome
  { output := serializeResult "show" call.result, call := call }

/-- Embedding of the `run_suzieq_summarize` tool (lines 120-147). -/
def runSuzieqSummarize (cfg : Config) (table : String) (filters : Option PyObj)
    (outcome : HttpOutcome) : ToolResult :=
  let call := querySuzieqApi cfg "summarize" table (actualFilters filters) outcome
  { output := serializeResult "summarize" call.result, call := call }

/-- The three terminal shapes a helper call can produce. -/
inductive Branch where
  | ok : Branch
  | err : Branch
  | warn : Branch

/-- Which of the three shapes a call takes, mirroring the branch conditions
of `querySuzieqApi` (it depends only on the configuration and the outcome). -/
def branchOf (cfg : Config) (outcome : HttpOutcome) : Branch :=
  if !(strOptTruthy cfg.endpoint) || !(strOptTruthy cfg.apiKey) then .err
  else
    match outcome with
    | .requestError _ => .err
    | .otherError _ => .err
    | .success resp =>
      if 400 ≤ resp.status_code then .err
      else if resp.status_code = 204 then .warn
      else if ctContainsJson resp.contentType then
        match loads resp.text with
        | some _ => .ok
        | none => .err
      else .err

/- ## Dictionary lemmas -/

/-- Setting a key makes it look up to the new value. -/
theorem dictLookup_dictSet_self (d : Filters) (k : String) (v : PyObj) :
    dictLookup (dictSet d k v) k = some v := by
  induction d with
  | nil => simp [dictSet, dictLookup]
  | cons h t ih =>
    obtain ⟨k2, v2⟩ := h
    by_cases hk : k2 = k
    · simp [dictSet, dictLookup, hk]
    · simp [dictSet, dictLookup, hk, ih]

/-- Setting one key leaves every other key's lookup unchanged. -/
theorem dictLookup_dictSet_other (d : Filters) (k k2 : String) (v : PyObj)
    (hne : k2 ≠ k) : dictLookup (dictSet d k v) k2 = dictLookup d k2 := by
  induction d with
  | nil =>
    simp only [dictSet, dictLookup]
    rw [if_neg (fun h : k = k2 => hne h.symm)]
  | cons hd t ih =>
    obtain ⟨k3, v3⟩ := hd
    by_cases hk : k3 = k
    · subst hk
      simp only [dictSet, if_pos rfl, dictLookup]
      rw [if_neg (fun h : k3 = k2 => hne h.symm),
        if_neg (fun h : k3 = k2 => hne h.symm)]
    · simp only [dictSet, if_neg hk, dictLookup]
      by_cases hk2 : k3 = k2
      · rw [if_pos hk2, if_pos hk2]
      · rw [if_neg hk2, if_neg hk2, ih]

/- ## Whitespace and character lemmas -/

/-- A whitespace character is not a digit. -/
theorem ws_not_digit {c : Char} (h : isWs c = true) : isDigitChar c = false := by
  simp only [isWs, Bool.or_eq_true, decide_eq_true_eq] at h
  rcases h with ((h | h) | h) | h <;> subst h <;> decide

/-- Skipping whitespace passes over an all-whitespace prefix. -/
theorem skipWs_append_allWs (ws l : List Char) (h : allWs ws = true) :
    skipWs (ws ++ l) = skipWs l := by
  induction ws with
  | nil => simp
  | cons c t ih =>
    simp only [allWs, List.all_cons, Bool.and_eq_true] at h
    simpa [skipWs, h.1] using ih (by simpa [allWs] using h.2)

/-- Skipping whitespace stops at a non-whitespace head. -/
theorem skipWs_cons_nonws {c : Char} (l : List Char) (h : isWs c = false) :
    skipWs (c :: l) = c :: l := by
  simp [skipWs, h]

/-- The two-space indentation is all whitespace. -/
theorem allWs_indentChars (i : Nat) : allWs (indentChars i) = true := by
  unfold indentChars
  induction (2 * i) with
  | zero => simp [allWs]
  | succ n ih => simpa [allWs, List.replicate_succ, isWs] using ih

/-- Consuming an expected sequence off the front succeeds. -/
theorem expectChars_append (es l : List Char) :
    expectChars es (es ++ l) = some l := by
  induction es with
  | nil => simp [expectChars]
  | cons c t ih => simp [expectChars, ih]

/- ## String-token round trip -/

/-- Reading an escaped string body back yields the original characters. -/
theorem parseStrChars_escList (cs rest : List Char) :
    parseStrChars (escList cs ++ '"' :: rest) = some (cs, rest) := by
  induction cs with
  | nil =>
    rw [escList, List.nil_append, parseStrChars.eq_def]
    norm_num
  | cons c t ih =>
    by_cases h1 : c = '"'
    · subst h1
      simp only [escList, escapeChar, if_pos rfl, List.cons_append, List.nil_append,
        List.append_assoc]
      rw [parseStrChars.eq_def]
      simp [unescChar, ih]
    · by_cases h2 : c = '\\'
      · subst h2
        simp only [escList, escapeChar, List.cons_append, List.nil_append,
          List.append_assoc]
        rw [parseStrChars.eq_def]
        simp [unescChar, ih]
      · simp only [escList, escapeChar, h1, h2, if_false, List.cons_append,
          List.nil_append, List.append_assoc]
        rw [parseStrChars.eq_def]
        simp [h1, h2, ih]

/- ## Decimal-number round trip -/

/-- The rendering of a value below ten. -/
theorem natChars_lt {n : Nat} (h : n < 10) : natChars n = [digitChar n] := by
  unfold natChars
  simp [h]

/-- The rendering of a value of ten or more. -/
theorem natChars_ge {n : Nat} (h : ¬ n < 10) :
    natChars n = natChars (n / 10) ++ [digitChar (n % 10)] := by
  conv_lhs => rw [natChars]
  simp [h]

/-- Facts about a digit character for a value below ten. -/
theorem digitChar_facts {d : Nat} (h : d < 10) :
    isDigitChar (digitChar d) = true ∧ isWs (digitChar d) = false ∧
      (digitChar d).toNat = 48 + d := by
  interval_cases d <;> exact ⟨by decide, by decide, by decide⟩

/-- A rendered natural number starts with a digit character. -/
theorem natChars_head (n : Nat) :
    ∃ d t, d < 10 ∧ natChars n = digitChar d :: t := by
  induction n using Nat.strong_induction_on with
  | _ n ih =>
    by_cases h : n < 10
    · exact ⟨n, [], h, natChars_lt h⟩
    · obtain ⟨d, t, hd, ht⟩ := ih (n / 10) (Nat.div_lt_self (by omega) (by norm_num))
      exact ⟨d, t ++ [digitChar (n % 10)], hd, by rw [natChars_ge h, ht]; rfl⟩

/-- Reading digits off a rendered natural number accumulates its value. -/
theorem parseDigits_natChars (n : Nat) :
    ∀ acc rest, parseDigits (natChars n ++ rest) acc =
      parseDigits rest (acc * 10 ^ (natChars n).length + n) := by
  induction n using Nat.strong_induction_on with
  | _ n ih =>
    intro acc rest
    by_cases h : n < 10
    · rw [natChars_lt h]
      obtain ⟨hdig, -, hval⟩ := digitChar_facts h
      simp [parseDigits, hdig, hval]
    · rw [natChars_ge h, List.append_assoc,
        ih (n / 10) (Nat.div_lt_self (by omega) (by norm_num)) acc
          ([digitChar (n % 10)] ++ rest)]
      obtain ⟨hdig, -, hval⟩ := digitChar_facts (Nat.mod_lt n (y := 10) (by norm_num))
      simp only [List.singleton_append, parseDigits, hdig, if_true, hval,
        List.length_append, List.length_singleton, Nat.add_sub_cancel_left]
      congr 1
      rw [pow_succ, ← mul_assoc]
      omega

/-- Reading digits stops at a non-digit boundary. -/
theorem parseDigits_boundary (rest : List Char) (acc : Nat)
    (h : digitBoundary rest = true) : parseDigits rest acc = (acc, rest) := by
  cases rest with
  | nil => simp [parseDigits]
  | cons c t =>
    simp only [digitBoundary, Bool.not_eq_true'] at h
    simp [parseDigits, h]

/-- Reading a rendered natural number at a boundary yields exactly it. -/
theorem parseDigits_natChars_round (n : Nat) (rest : List Char)
    (h : digitBoundary rest = true) :
    parseDigits (natChars n ++ rest) 0 = (n, rest) := by
  rw [parseDigits_natChars, parseDigits_boundary _ _ h]
  simp

/- ## Cost positivity -/

/-- Every value costs the parser at least one step. -/
theorem costV_pos (v : PyObj) : 1 ≤ costV v := by
  cases v with
  | arr xs => cases xs <;> simp [costV]
  | obj ms =>
    cases ms with
    | nil => simp [costV]
    | cons m t => obtain ⟨k, v2⟩ := m; simp [costV]
  | _ => simp [costV]

/-- Item sequences cost the parser at least one step. -/
theorem costSeq_pos (x : PyObj) (t : List PyObj) : 1 ≤ costSeq x t := by
  cases t with
  | nil => simp [costSeq]
  | cons y t2 => simp [costSeq]; omega

/-- Member sequences cost the parser at least one step. -/
theorem costMem_pos (v : PyObj) (t : List (String × PyObj)) : 1 ≤ costMem v t := by
  cases t with
  | nil => simp [costMem]
  | cons m t2 => obtain ⟨k, v2⟩ := m; simp [costMem]; omega

/- ## Character-class facts used to steer the parser -/

/-- A digit character is none of the characters the value parser tests for
before its number branch, nor a structural character, nor whitespace. -/
theorem digit_steer {c : Char} (h : isDigitChar c = true) :
    c ≠ 'n' ∧ c ≠ 't' ∧ c ≠ 'f' ∧ c ≠ '"' ∧ c ≠ '[' ∧ c ≠ lbraceC ∧ c ≠ '-' ∧
      c ≠ ']' ∧ c ≠ rbraceC ∧ c ≠ ',' ∧ isWs c = false := by
  refine ⟨?_, ?_, ?_, ?_, ?_, ?_, ?_, ?_, ?_, ?_, ?_⟩
  all_goals first
  | (intro heq; rw [heq] at h; exact absurd h (by decide))
  | (cases hw : isWs c with
     | false => rfl
     | true => rw [ws_not_digit hw] at h; exact absurd h (by decide))

/- ## Head shapes of serialised values -/

/-- The items of an array start with the first item's serialisation. -/
theorem dumpsSeq_shape (ind : Nat) (x : PyObj) (t : List PyObj) :
    ∃ suf, dumpsSeq ind x t = dumpsChars ind x ++ suf := by
  cases t with
  | nil => exact ⟨[], by simp [dumpsSeq]⟩
  | cons y t2 =>
    exact ⟨',' :: '\n' :: (indentChars ind ++ dumpsSeq ind y t2), by simp [dumpsSeq]⟩

/-- The members of an object start with an opening quote. -/
theorem dumpsMem_shape (ind : Nat) (k : String) (v : PyObj)
    (t : List (String × PyObj)) :
    ∃ tail, dumpsMem ind k v t = '"' :: tail := by
  cases t with
  | nil =>
    exact ⟨(escList k.data ++ ['"']) ++ (':' :: ' ' :: dumpsChars ind v),
      by simp [dumpsMem, quoteChars]⟩
  | cons m t2 =>
    obtain ⟨k2, v2⟩ := m
    exact ⟨(escList k.data ++ ['"']) ++ (':' :: ' ' ::
        (dumpsChars ind v ++ (',' :: '\n' :: (indentChars ind ++ dumpsMem ind k2 v2 t2)))),
      by simp [dumpsMem, quoteChars]⟩

/-- A serialised value starts with a non-whitespace character that is
neither a closing bracket nor a closing brace. -/
theorem dumpsChars_head (ind : Nat) (v : PyObj) :
    ∃ c t, dumpsChars ind v = c :: t ∧ isWs c = false ∧ c ≠ ']' ∧ c ≠ rbraceC := by
  cases v with
  | null => exact ⟨'n', ['u', 'l', 'l'], by simp [dumpsChars], by decide, by decide, by decide⟩
  | bool b =>
    cases b with
    | false =>
      exact ⟨'f', ['a', 'l', 's', 'e'], by simp [dumpsChars], by decide, by decide, by decide⟩
    | true =>
      exact ⟨'t', ['r', 'u', 'e'], by simp [dumpsChars], by decide, by decide, by decide⟩
  | int n =>
    by_cases hn : n < 0
    · exact ⟨'-', natChars n.natAbs,
        by simp [dumpsChars, intChars, hn], by decide, by decide, by decide⟩
    · obtain ⟨d, t, hd, ht⟩ := natChars_head n.natAbs
      obtain ⟨hdig, -, -⟩ := digitChar_facts hd
      obtain ⟨-, -, -, -, -, -, -, h1, h2, -, hw⟩ := digit_steer hdig
      exact ⟨digitChar d, t, by simp [dumpsChars, intChars, hn, ht], hw, h1, h2⟩
  | str s =>
    exact ⟨'"', escList s.data ++ ['"'],
      by simp [dumpsChars, quoteChars], by decide, by decide, by decide⟩
  | nonser s =>
    exact ⟨'n', ['u', 'l', 'l'], by simp [dumpsChars], by decide, by decide, by decide⟩
  | arr xs =>
    cases xs with
    | nil => exact ⟨'[', [']'], by simp [dumpsChars], by decide, by decide, by decide⟩
    | cons x t =>
      exact ⟨'[', '\n' :: (indentChars (ind + 1) ++
          (dumpsSeq (ind + 1) x t ++ ('\n' :: (indentChars ind ++ [']'])))),
        by simp [dumpsChars], by decide, by decide, by decide⟩
  | obj ms =>
    cases ms with
    | nil => exact ⟨lbraceC, [rbraceC], by simp [dumpsChars], by decide, by decide, by decide⟩
    | cons m t =>
      obtain ⟨k, v2⟩ := m
      exact ⟨lbraceC, '\n' :: (indentChars (ind + 1) ++
          (dumpsMem (ind + 1) k v2 t ++ ('\n' :: (indentChars ind ++ [rbraceC])))),
        by simp [dumpsChars], by decide, by decide, by decide⟩

/- ## Boundary helpers -/

/-- Whitespace followed by a non-digit is a digit boundary. -/
theorem digitBoundary_ws_cons (ws : List Char) (c : Char) (rest : List Char)
    (hws : allWs ws = true) (hc : isDigitChar c = false) :
    digitBoundary (ws ++ c :: rest) = true := by
  cases ws with
  | nil => simp [digitBoundary, hc]
  | cons w t =>
    simp only [allWs, List.all_cons, Bool.and_eq_true] at hws
    simp [digitBoundary, ws_not_digit hws.1]

/-- A digit boundary bounds any value's serialisation. -/
theorem numBoundary_any (v : PyObj) (l : List Char) (h : digitBoundary l = true) :
    numBoundary v l = true := by
  cases v <;> simp [numBoundary, h]

/-- A newline followed by indentation is all whitespace. -/
theorem allWs_nl_indent (i : Nat) : allWs ('\n' :: indentChars i) = true := by
  have h := allWs_indentChars i
  simp only [allWs] at h ⊢
  simp [List.all_cons, isWs, h]

/- ## The integer token is read back -/

/-- A rendered integer, possibly after whitespace and before a digit
boundary, is read back exactly. -/
theorem parseVal_intChars (f : Nat) (n : Int) (ws rest : List Char)
    (hws : allWs ws = true) (hb : digitBoundary rest = true) :
    parseVal (f + 1) (ws ++ (intChars n ++ rest)) = some (PyObj.int n, rest) := by
  by_cases hn : n < 0
  · rw [intChars, if_pos hn]
    obtain ⟨d, t, hd, ht⟩ := natChars_head n.natAbs
    obtain ⟨hdig, -, -⟩ := digitChar_facts hd
    rw [parseVal.eq_def]
    simp only [List.cons_append, List.append_assoc]
    rw [skipWs_append_allWs _ _ hws, skipWs_cons_nonws _ (by decide)]
    have hpd : parseDigits (natChars n.natAbs ++ rest) 0 = (n.natAbs, rest) :=
      parseDigits_natChars_round _ _ hb
    rw [ht] at hpd ⊢
    simp only [List.cons_append] at hpd ⊢
    simp [hdig, hpd, (show ('-' : Char) ≠ lbraceC by decide)]
    rw [abs_of_neg hn, neg_neg]
  · rw [intChars, if_neg hn]
    obtain ⟨d, t, hd, ht⟩ := natChars_head n.natAbs
    obtain ⟨hdig, -, -⟩ := digitChar_facts hd
    obtain ⟨g1, g2, g3, g4, g5, g6, g7, -, -, -, gw⟩ := digit_steer hdig
    rw [parseVal.eq_def]
    have hpd : parseDigits (natChars n.natAbs ++ rest) 0 = (n.natAbs, rest) :=
      parseDigits_natChars_round _ _ hb
    rw [ht] at hpd ⊢
    simp only [List.cons_append, List.append_assoc]
    rw [skipWs_append_allWs _ _ hws, skipWs_cons_nonws _ gw]
    simp only [List.cons_append] at hpd
    simp [g1, g2, g3, g4, g5, g6, g7, hdig, hpd]
    omega

/- ## The consume theorem: parsing reads back the serialised form -/

/-- Reading a serialised value, item list, or member list, embedded in its
surrounding whitespace and closing delimiter, gives back exactly that value
and the remaining input, for any fuel at least the value's cost. -/
theorem parse_dumps_all (fuel : Nat) :
    (∀ v ind ws rest, serializable v = true → allWs ws = true →
        numBoundary v rest = true → costV v ≤ fuel →
        parseVal fuel (ws ++ (dumpsChars ind v ++ rest)) = some (v, rest)) ∧
    (∀ x t ind ws0 ws1 rest, serializable x = true → serializableList t = true →
        allWs ws0 = true → allWs ws1 = true → costSeq x t ≤ fuel →
        parseItems fuel (ws0 ++ (dumpsSeq ind x t ++ (ws1 ++ (']' :: rest)))) =
          some (x :: t, rest)) ∧
    (∀ k v t ind ws0 ws1 rest, serializable v = true → serializableMems t = true →
        allWs ws0 = true → allWs ws1 = true → costMem v t ≤ fuel →
        parseMembers fuel (ws0 ++ (dumpsMem ind k v t ++ (ws1 ++ (rbraceC :: rest)))) =
          some ((k, v) :: t, rest)) := by
  induction fuel with
  | zero =>
    refine ⟨?_, ?_, ?_⟩
    · intro v ind ws rest _ _ _ hcost
      exact absurd hcost (by have := costV_pos v; omega)
    · intro x t ind ws0 ws1 rest _ _ _ _ hcost
      exact absurd hcost (by have := costSeq_pos x t; omega)
    · intro k v t ind ws0 ws1 rest _ _ _ _ hcost
      exact absurd hcost (by have := costMem_pos v t; omega)
  | succ f ih =>
    obtain ⟨ihP, ihQ, ihR⟩ := ih
    refine ⟨?_, ?_, ?_⟩
    · -- parseVal reads back a serialised value
      intro v ind ws rest hs hws hnb hcost
      cases v with
      | null =>
        rw [parseVal.eq_def]
        simp only [dumpsChars, List.cons_append, List.nil_append]
        rw [skipWs_append_allWs _ _ hws, skipWs_cons_nonws _ (by decide)]
        simp [expectChars]
      | bool b =>
        cases b with
        | true =>
          rw [parseVal.eq_def]
          simp only [dumpsChars, List.cons_append, List.nil_append]
          rw [skipWs_append_allWs _ _ hws, skipWs_cons_nonws _ (by decide)]
          simp [expectChars]
        | false =>
          rw [parseVal.eq_def]
          simp only [dumpsChars, List.cons_append, List.nil_append]
          rw [skipWs_append_allWs _ _ hws, skipWs_cons_nonws _ (by decide)]
          simp [expectChars]
      | int n =>
        simp only [dumpsChars]
        exact parseVal_intChars f n ws rest hws (by simpa [numBoundary] using hnb)
      | str s =>
        obtain ⟨cs⟩ := s
        rw [parseVal.eq_def]
        simp only [dumpsChars, quoteChars, List.cons_append, List.append_assoc,
          List.singleton_append]
        rw [skipWs_append_allWs _ _ hws, skipWs_cons_nonws _ (by decide)]
        simp [parseStrChars_escList]
      | nonser s => simp [serializable] at hs
      | arr xs =>
        cases xs with
        | nil =>
          rw [parseVal.eq_def]
          simp only [dumpsChars, List.cons_append, List.nil_append]
          rw [skipWs_append_allWs _ _ hws, skipWs_cons_nonws _ (by decide)]
          simp [skipWs, isWs]
        | cons x t =>
          have hs2 : serializable x = true ∧ serializableList t = true := by
            have := hs
            simp only [serializable, serializableList, Bool.and_eq_true] at this
            exact this
          have hc2 : costSeq x t ≤ f := by
            simp only [costV] at hcost
            omega
          obtain ⟨c0, t0, hct, hcw, hcne, -⟩ := dumpsChars_head (ind + 1) x
          obtain ⟨suf, hsuf⟩ := dumpsSeq_shape (ind + 1) x t
          have hr : skipWs ('\n' :: (indentChars (ind + 1) ++
              (dumpsSeq (ind + 1) x t ++ ('\n' :: (indentChars ind ++ (']' :: rest)))))) =
              dumpsSeq (ind + 1) x t ++ ('\n' :: (indentChars ind ++ (']' :: rest))) := by
            rw [show ('\n' :: (indentChars (ind + 1) ++
                (dumpsSeq (ind + 1) x t ++ ('\n' :: (indentChars ind ++ (']' :: rest)))))) =
              (('\n' :: indentChars (ind + 1)) ++
                (dumpsSeq (ind + 1) x t ++ ('\n' :: (indentChars ind ++ (']' :: rest))))) from rfl]
            rw [skipWs_append_allWs _ _ (allWs_nl_indent _), hsuf, hct]
            simp only [List.cons_append, List.append_assoc]
            rw [skipWs_cons_nonws _ hcw]
          have hhead : (dumpsSeq (ind + 1) x t ++
              ('\n' :: (indentChars ind ++ (']' :: rest)))).head? = some c0 := by
            rw [hsuf, hct]
            simp
          have hQ := ihQ x t (ind + 1) [] ('\n' :: indentChars ind) rest hs2.1 hs2.2
            rfl (allWs_nl_indent ind) hc2
          simp only [List.nil_append, List.cons_append, List.append_assoc] at hQ
          rw [parseVal.eq_def]
          simp only [dumpsChars, List.cons_append, List.append_assoc]
          rw [skipWs_append_allWs _ _ hws, skipWs_cons_nonws _ (by decide)]
          simp only [List.cons_append, List.append_assoc] at hr hhead hQ ⊢
          simp [hr, hhead, Option.some.injEq, hcne, hQ]
      | obj ms =>
        cases ms with
        | nil =>
          rw [parseVal.eq_def]
          simp only [dumpsChars, List.cons_append, List.nil_append]
          rw [skipWs_append_allWs _ _ hws,
            skipWs_cons_nonws _ (by decide : isWs lbraceC = false)]
          have h1 : lbraceC ≠ 'n' := by decide
          have h2 : lbraceC ≠ 't' := by decide
          have h3 : lbraceC ≠ 'f' := by decide
          have h4 : lbraceC ≠ '"' := by decide
          have h5 : lbraceC ≠ '[' := by decide
          have h6 : isWs rbraceC = false := by decide
          simp [h1, h2, h3, h4, h5, skipWs, h6]
        | cons m t =>
          obtain ⟨k, v⟩ := m
          have hs2 : serializable v = true ∧ serializableMems t = true := by
            have := hs
            simp only [serializable, serializableMems, Bool.and_eq_true] at this
            exact this
          have hc2 : costMem v t ≤ f := by
            simp only [costV] at hcost
            omega
          obtain ⟨ktail, hkt⟩ := dumpsMem_shape (ind + 1) k v t
          have hr : skipWs ('\n' :: (indentChars (ind + 1) ++
              (dumpsMem (ind + 1) k v t ++ ('\n' :: (indentChars ind ++ (rbraceC :: rest)))))) =
              dumpsMem (ind + 1) k v t ++ ('\n' :: (indentChars ind ++ (rbraceC :: rest))) := by
            rw [show ('\n' :: (indentChars (ind + 1) ++
                (dumpsMem (ind + 1) k v t ++ ('\n' :: (indentChars ind ++ (rbraceC :: rest)))))) =
              (('\n' :: indentChars (ind + 1)) ++
                (dumpsMem (ind + 1) k v t ++ ('\n' :: (indentChars ind ++ (rbraceC :: rest))))) from rfl]
            rw [skipWs_append_allWs _ _ (allWs_nl_indent _), hkt]
            simp only [List.cons_append, List.append_assoc]
            rw [skipWs_cons_nonws _ (by decide)]
          have hhead : (dumpsMem (ind + 1) k v t ++
              ('\n' :: (indentChars ind ++ (rbraceC :: rest)))).head? = some '"' := by
            rw [hkt]
            simp
          have hR := ihR k v t (ind + 1) [] ('\n' :: indentChars ind) rest hs2.1 hs2.2
            rfl (allWs_nl_indent ind) hc2
          simp only [List.nil_append, List.cons_append, List.append_assoc] at hR
          have h1 : lbraceC ≠ 'n' := by decide
          have h2 : lbraceC ≠ 't' := by decide
          have h3 : lbraceC ≠ 'f' := by decide
          have h4 : lbraceC ≠ '"' := by decide
          have h5 : lbraceC ≠ '[' := by decide
          have h7 : ('"' : Char) ≠ rbraceC := by decide
          rw [parseVal.eq_def]
          simp only [dumpsChars, List.cons_append, List.append_assoc]
          rw [skipWs_append_allWs _ _ hws,
            skipWs_cons_nonws _ (by decide : isWs lbraceC = false)]
          simp only [List.cons_append, List.append_assoc] at hr hhead hR ⊢
          simp [h1, h2, h3, h4, h5, hr, hhead, Option.some.injEq, h7, hR]
    · -- parseItems reads back a serialised item sequence
      intro x t ind ws0 ws1 rest hsx hst hws0 hws1 hcost
      cases t with
      | nil =>
        have hP := ihP x ind ws0 (ws1 ++ (']' :: rest)) hsx hws0
          (numBoundary_any _ _ (digitBoundary_ws_cons ws1 ']' rest hws1 (by decide)))
          (by simp only [costSeq] at hcost; omega)
        have h1 : skipWs (ws1 ++ (']' :: rest)) = ']' :: rest := by
          rw [skipWs_append_allWs _ _ hws1, skipWs_cons_nonws _ (by decide)]
        rw [parseItems.eq_def]
        simp only [dumpsSeq]
        rw [hP]
        simp [h1]
      | cons y t2 =>
        have hst2 : serializable y = true ∧ serializableList t2 = true := by
          have := hst
          simp only [serializableList, Bool.and_eq_true] at this
          exact this
        have hcx : costV x ≤ f := by
          have := costSeq_pos y t2
          simp only [costSeq] at hcost
          omega
        have hcy : costSeq y t2 ≤ f := by
          have := costV_pos x
          simp only [costSeq] at hcost
          omega
        have hP := ihP x ind ws0
          (',' :: '\n' :: (indentChars ind ++ (dumpsSeq ind y t2 ++ (ws1 ++ (']' :: rest)))))
          hsx hws0 (numBoundary_any _ _ (by simp [digitBoundary, isDigitChar])) hcx
        have hQ := ihQ y t2 ind ('\n' :: indentChars ind) ws1 rest hst2.1 hst2.2
          (allWs_nl_indent ind) hws1 hcy
        simp only [List.cons_append, List.nil_append, List.append_assoc] at hP hQ
        rw [parseItems.eq_def]
        simp only [dumpsSeq, List.cons_append, List.append_assoc]
        rw [hP]
        have h1 : skipWs (',' :: '\n' ::
            (indentChars ind ++ (dumpsSeq ind y t2 ++ (ws1 ++ (']' :: rest))))) =
            ',' :: '\n' :: (indentChars ind ++ (dumpsSeq ind y t2 ++ (ws1 ++ (']' :: rest)))) :=
          skipWs_cons_nonws _ (by decide)
        simp [h1, hQ]
    · -- parseMembers reads back a serialised member sequence
      intro k v t ind ws0 ws1 rest hsv hst hws0 hws1 hcost
      obtain ⟨kcs⟩ := k
      cases t with
      | nil =>
        have hP := ihP v ind [' '] (ws1 ++ (rbraceC :: rest)) hsv (by decide)
          (numBoundary_any _ _ (digitBoundary_ws_cons ws1 rbraceC rest hws1 (by decide)))
          (by simp only [costMem] at hcost; omega)
        have h1 : skipWs (ws1 ++ (rbraceC :: rest)) = rbraceC :: rest := by
          rw [skipWs_append_allWs _ _ hws1, skipWs_cons_nonws _ (by decide)]
        have h2 : rbraceC ≠ ',' := by decide
        rw [parseMembers.eq_def]
        simp only [dumpsMem, quoteChars, List.cons_append, List.append_assoc,
          List.singleton_append, List.nil_append]
        rw [skipWs_append_allWs _ _ hws0, skipWs_cons_nonws _ (by decide)]
        simp only [List.cons_append, List.nil_append, List.append_assoc] at hP
        simp [parseStrChars_escList, skipWs, isWs, hP, h1, Option.some.injEq, h2]
      | cons m t2 =>
        obtain ⟨k2, v2⟩ := m
        have hst2 : serializable v2 = true ∧ serializableMems t2 = true := by
          have := hst
          simp only [serializableMems, Bool.and_eq_true] at this
          exact this
        have hcv : costV v ≤ f := by
          have := costMem_pos v2 t2
          simp only [costMem] at hcost
          omega
        have hcv2 : costMem v2 t2 ≤ f := by
          have := costV_pos v
          simp only [costMem] at hcost
          omega
        have hP := ihP v ind [' ']
          (',' :: '\n' :: (indentChars ind ++ (dumpsMem ind k2 v2 t2 ++ (ws1 ++ (rbraceC :: rest)))))
          hsv (by decide) (numBoundary_any _ _ (by simp [digitBoundary, isDigitChar])) hcv
        have hR := ihR k2 v2 t2 ind ('\n' :: indentChars ind) ws1 rest hst2.1 hst2.2
          (allWs_nl_indent ind) hws1 hcv2
        simp only [List.cons_append, List.nil_append, List.append_assoc] at hP hR
        have h1 : skipWs (',' :: '\n' ::
            (indentChars ind ++ (dumpsMem ind k2 v2 t2 ++ (ws1 ++ (rbraceC :: rest))))) =
            ',' :: '\n' ::
              (indentChars ind ++ (dumpsMem ind k2 v2 t2 ++ (ws1 ++ (rbraceC :: rest)))) :=
          skipWs_cons_nonws _ (by decide)
        rw [parseMembers.eq_def]
        simp only [dumpsMem, quoteChars, List.cons_append, List.append_assoc,
          List.singleton_append, List.nil_append]
        rw [skipWs_append_allWs _ _ hws0, skipWs_cons_nonws _ (by decide)]
        simp [parseStrChars_escList, skipWs, isWs, hP, h1, hR]

/- ## Parsed values are serialisable -/

/-- Whatever the parser produces contains no non-serialisable object. -/
theorem parse_serializable (fuel : Nat) :
    (∀ l v r, parseVal fuel l = some (v, r) → serializable v = true) ∧
    (∀ l vs r, parseItems fuel l = some (vs, r) → serializableList vs = true) ∧
    (∀ l ms r, parseMembers fuel l = some (ms, r) → serializableMems ms = true) := by
  induction fuel with
  | zero =>
    refine ⟨?_, ?_, ?_⟩ <;> (intro l a r h; simp [parseVal, parseItems, parseMembers] at h)
  | succ f ih =>
    obtain ⟨ihP, ihQ, ihR⟩ := ih
    refine ⟨?_, ?_, ?_⟩
    · intro l v r h
      simp only [parseVal] at h
      cases hsw : skipWs l with
      | nil => simp only [hsw] at h; exact absurd h (by simp)
      | cons c cr =>
        simp only [hsw] at h
        by_cases h1 : c = 'n'
        · rw [if_pos h1] at h
          cases he : expectChars ['u', 'l', 'l'] cr with
          | none => simp only [he] at h; exact absurd h (by simp)
          | some r2 =>
            simp only [he] at h
            obtain ⟨hv, -⟩ : PyObj.null = v ∧ r2 = r := by
              simpa [Prod.ext_iff] using h
            subst hv; simp [serializable]
        · rw [if_neg h1] at h
          by_cases h2 : c = 't'
          · rw [if_pos h2] at h
            cases he : expectChars ['r', 'u', 'e'] cr with
            | none => simp only [he] at h; exact absurd h (by simp)
            | some r2 =>
              simp only [he] at h
              obtain ⟨hv, -⟩ : PyObj.bool true = v ∧ r2 = r := by
                simpa [Prod.ext_iff] using h
              subst hv; simp [serializable]
          · rw [if_neg h2] at h
            by_cases h3 : c = 'f'
            · rw [if_pos h3] at h
              cases he : expectChars ['a', 'l', 's', 'e'] cr with
              | none => simp only [he] at h; exact absurd h (by simp)
              | some r2 =>
                simp only [he] at h
                obtain ⟨hv, -⟩ : PyObj.bool false = v ∧ r2 = r := by
                  simpa [Prod.ext_iff] using h
                subst hv; simp [serializable]
            · rw [if_neg h3] at h
              by_cases h4 : c = '"'
              · rw [if_pos h4] at h
                cases hps : parseStrChars cr with
                | none => simp only [hps] at h; exact absurd h (by simp)
                | some p =>
                  obtain ⟨s, r2⟩ := p
                  simp only [hps] at h
                  obtain ⟨hv, -⟩ : PyObj.str ⟨s⟩ = v ∧ r2 = r := by
                    simpa [Prod.ext_iff] using h
                  subst hv; simp [serializable]
              · rw [if_neg h4] at h
                by_cases h5 : c = '['
                · rw [if_pos h5] at h
                  by_cases hb : (skipWs cr).head? = some ']'
                  · simp only [hb, if_true] at h
                    obtain ⟨hv, -⟩ : PyObj.arr [] = v ∧ (skipWs cr).tail = r := by
                      simpa [Prod.ext_iff] using h
                    subst hv
                    simp [serializable, serializableList]
                  · simp only [hb, if_false] at h
                    cases hpi : parseItems f (skipWs cr) with
                    | none => simp only [hpi] at h; exact absurd h (by simp)
                    | some p =>
                      obtain ⟨vs, r3⟩ := p
                      simp only [hpi] at h
                      obtain ⟨hv, -⟩ : PyObj.arr vs = v ∧ r3 = r := by
                        simpa [Prod.ext_iff] using h
                      subst hv
                      simp only [serializable]
                      exact ihQ _ _ _ hpi
                · rw [if_neg h5] at h
                  by_cases h6 : c = lbraceC
                  · rw [if_pos h6] at h
                    by_cases hb : (skipWs cr).head? = some rbraceC
                    · simp only [hb, if_true] at h
                      obtain ⟨hv, -⟩ : PyObj.obj [] = v ∧ (skipWs cr).tail = r := by
                        simpa [Prod.ext_iff] using h
                      subst hv
                      simp [serializable, serializableMems]
                    · simp only [hb, if_false] at h
                      cases hpm : parseMembers f (skipWs cr) with
                      | none => simp only [hpm] at h; exact absurd h (by simp)
                      | some p =>
                        obtain ⟨ms, r3⟩ := p
                        simp only [hpm] at h
                        obtain ⟨hv, -⟩ : PyObj.obj ms = v ∧ r3 = r := by
                          simpa [Prod.ext_iff] using h
                        subst hv
                        simp only [serializable]
                        exact ihR _ _ _ hpm
                  · rw [if_neg h6] at h
                    by_cases h7 : c = '-'
                    · rw [if_pos h7] at h
                      cases cr with
                      | nil => exact absurd h (by simp)
                      | cons c2 cr2 =>
                        by_cases hd : isDigitChar c2
                        · simp only [hd, if_true] at h
                          obtain ⟨hv, -⟩ :
                              PyObj.int (-((parseDigits (c2 :: cr2) 0).1 : Int)) = v ∧
                                (parseDigits (c2 :: cr2) 0).2 = r := by
                            simpa [Prod.ext_iff] using h
                          subst hv; simp [serializable]
                        · simp only [hd, if_false] at h
                          exact absurd h (by simp)
                    · rw [if_neg h7] at h
                      by_cases h8 : isDigitChar c
                      · simp only [h8, if_true] at h
                        obtain ⟨hv, -⟩ :
                            PyObj.int ((parseDigits (c :: cr) 0).1 : Int) = v ∧
                              (parseDigits (c :: cr) 0).2 = r := by
                          simpa [Prod.ext_iff] using h
                        subst hv; simp [serializable]
                      · simp only [h8, if_false] at h
                        exact absurd h (by simp)
    · intro l vs r h
      simp only [parseItems] at h
      cases hpv : parseVal f l with
      | none => simp only [hpv] at h; exact absurd h (by simp)
      | some p =>
        obtain ⟨v, r0⟩ := p
        simp only [hpv] at h
        by_cases hb : (skipWs r0).head? = some ','
        · simp only [hb, if_true] at h
          cases hpi : parseItems f (skipWs r0).tail with
          | none => simp only [hpi] at h; exact absurd h (by simp)
          | some p2 =>
            obtain ⟨vs2, r3⟩ := p2
            simp only [hpi] at h
            obtain ⟨hv, -⟩ : v :: vs2 = vs ∧ r3 = r := by
              simpa [Prod.ext_iff] using h
            subst hv
            simp only [serializableList, Bool.and_eq_true]
            exact ⟨ihP _ _ _ hpv, ihQ _ _ _ hpi⟩
        · simp only [hb, if_false] at h
          by_cases hb2 : (skipWs r0).head? = some ']'
          · simp only [hb2, if_true] at h
            obtain ⟨hv, -⟩ : [v] = vs ∧ (skipWs r0).tail = r := by
              simpa [Prod.ext_iff] using h
            subst hv
            simp only [serializableList, Bool.and_eq_true]
            exact ⟨ihP _ _ _ hpv, trivial⟩
          · simp only [hb2, if_false] at h
            exact absurd h (by simp)
    · intro l ms r h
      simp only [parseMembers] at h
      cases hsw : skipWs l with
      | nil => simp only [hsw] at h; exact absurd h (by simp)
      | cons c cr =>
        simp only [hsw] at h
        by_cases h1 : c = '"'
        · rw [if_pos h1] at h
          cases hps : parseStrChars cr with
          | none => simp only [hps] at h; exact absurd h (by simp)
          | some p =>
            obtain ⟨k, r2⟩ := p
            simp only [hps] at h
            by_cases hb : (skipWs r2).head? = some ':'
            · simp only [hb, if_true] at h
              cases hpv : parseVal f (skipWs r2).tail with
              | none => simp only [hpv] at h; exact absurd h (by simp)
              | some p2 =>
                obtain ⟨v, r4⟩ := p2
                simp only [hpv] at h
                by_cases hb2 : (skipWs r4).head? = some ','
                · simp only [hb2, if_true] at h
                  cases hpm : parseMembers f (skipWs r4).tail with
                  | none => simp only [hpm] at h; exact absurd h (by simp)
                  | some p3 =>
                    obtain ⟨ms2, r6⟩ := p3
                    simp only [hpm] at h
                    obtain ⟨hv, -⟩ : (⟨k⟩, v) :: ms2 = ms ∧ r6 = r := by
                      simpa [Prod.ext_iff] using h
                    subst hv
                    simp only [serializableMems, Bool.and_eq_true]
                    exact ⟨ihP _ _ _ hpv, ihR _ _ _ hpm⟩
                · simp only [hb2, if_false] at h
                  by_cases hb3 : (skipWs r4).head? = some rbraceC
                  · simp only [hb3, if_true] at h
                    obtain ⟨hv, -⟩ : [(⟨k⟩, v)] = ms ∧ (skipWs r4).tail = r := by
                      simpa [Prod.ext_iff] using h
                    subst hv
                    simp only [serializableMems, Bool.and_eq_true]
                    exact ⟨ihP _ _ _ hpv, trivial⟩
                  · simp only [hb3, if_false] at h
                    exact absurd h (by simp)
            · simp only [hb, if_false] at h
              exact absurd h (by simp)
        · rw [if_neg h1] at h
          exact absurd h (by simp)

/- ## Cost is bounded by the serialised length -/

mutual

/-- The parser cost of a value is at most its serialised length. -/
theorem costV_le_len (v : PyObj) (ind : Nat) :
    costV v ≤ (dumpsChars ind v).length := by
  cases v with
  | null => simp [costV, dumpsChars]
  | bool b => cases b <;> simp [costV, dumpsChars]
  | int n =>
    obtain ⟨d, t, hd, ht⟩ := natChars_head n.natAbs
    by_cases hn : n < 0 <;> simp [costV, dumpsChars, intChars, hn, ht]
  | str s => simp [costV, dumpsChars, quoteChars]
  | nonser s => simp [costV, dumpsChars]
  | arr xs =>
    cases xs with
    | nil => simp [costV, dumpsChars]
    | cons x t =>
      have h := costSeq_le_len x t (ind + 1)
      simp only [costV, dumpsChars, List.length_cons, List.length_append,
        List.length_singleton]
      omega
  | obj ms =>
    cases ms with
    | nil => simp [costV, dumpsChars]
    | cons m t =>
      obtain ⟨k, v2⟩ := m
      have h := costMem_le_len v2 k t (ind + 1)
      simp only [costV, dumpsChars, List.length_cons, List.length_append,
        List.length_singleton]
      omega
termination_by sizeOf v
decreasing_by all_goals (simp_wf <;> omega)

/-- The parser cost of an item sequence is at most its length plus three. -/
theorem costSeq_le_len (x : PyObj) (t : List PyObj) (ind : Nat) :
    costSeq x t ≤ (dumpsSeq ind x t).length + 3 := by
  cases t with
  | nil =>
    have h := costV_le_len x ind
    simp only [costSeq, dumpsSeq]
    omega
  | cons y t2 =>
    have h1 := costV_le_len x ind
    have h2 := costSeq_le_len y t2 ind
    simp only [costSeq, dumpsSeq, List.length_append, List.length_cons]
    omega
termination_by sizeOf x + sizeOf t
decreasing_by all_goals (simp_wf <;> omega)

/-- The parser cost of a member sequence is at most its length plus three. -/
theorem costMem_le_len (v : PyObj) (k : String) (t : List (String × PyObj)) (ind : Nat) :
    costMem v t ≤ (dumpsMem ind k v t).length + 3 := by
  cases t with
  | nil =>
    have h := costV_le_len v ind
    simp only [costMem, dumpsMem, List.length_append, List.length_cons]
    omega
  | cons m t2 =>
    obtain ⟨k2, v2⟩ := m
    have h1 := costV_le_len v ind
    have h2 := costMem_le_len v2 k2 t2 ind
    simp only [costMem, dumpsMem, List.length_append, List.length_cons]
    omega
termination_by sizeOf v + sizeOf t
decreasing_by all_goals (simp_wf <;> omega)

end

/- ## The round trip -/

/-- `dumps` succeeds on a serialisable value with the rendered text. -/
theorem dumps_eq (v : PyObj) (hs : serializable v = true) :
    dumps v = some ⟨dumpsChars 0 v⟩ := by
  simp [dumps, hs]

/-- Reading the rendered text of a serialisable value gives it back. -/
theorem loads_dumpsChars (v : PyObj) (hs : serializable v = true) :
    loads ⟨dumpsChars 0 v⟩ = some v := by
  have hP := (parse_dumps_all ((dumpsChars 0 v).length + 1)).1 v 0 [] [] hs rfl
    (by cases v <;> simp [numBoundary, digitBoundary])
    (le_trans (costV_le_len v 0) (by omega))
  simp only [List.nil_append, List.append_nil] at hP
  unfold loads
  simp only [show (⟨dumpsChars 0 v⟩ : String).length = (dumpsChars 0 v).length from rfl,
    show (⟨dumpsChars 0 v⟩ : String).data = dumpsChars 0 v from rfl]
  simp [hP, skipWs]

/-- The modelled `json` round trip: text written by `dumps` reads back as
the value it was written from. -/
theorem loads_dumps (v : PyObj) (s : String) (h : dumps v = some s) :
    loads s = some v := by
  by_cases hs : serializable v = true
  · rw [dumps_eq v hs] at h
    obtain rfl : (⟨dumpsChars 0 v⟩ : String) = s := by simpa using h
    exact loads_dumpsChars v hs
  · simp [dumps, hs] at h

/-- A value `loads` returns is serialisable. -/
theorem loads_serializable (s : String) (v : PyObj) (h : loads s = some v) :
    serializable v = true := by
  unfold loads at h
  cases hp : parseVal (s.length + 1) s.data with
  | none => simp [hp] at h
  | some p =>
    obtain ⟨v2, r⟩ := p
    simp only [hp] at h
    by_cases hr : skipWs r = []
    · simp only [hr, eq_self_iff_true, if_true, Option.some.injEq] at h
      subst h
      exact (parse_serializable _).1 _ _ _ hp
    · simp [hr] at h

/- ## The helper's result is always serialisable -/

/-- Every mapping the query helper returns is JSON-serialisable: error and
warning mappings by construction, and a passed-through body because it came
out of the JSON reader. -/
theorem query_result_serializable (cfg : Config) (verb table : String)
    (params : Option Filters) (outcome : HttpOutcome) :
    serializable (querySuzieqApi cfg verb table params outcome).result = true := by
  unfold querySuzieqApi
  by_cases hc : (!(strOptTruthy cfg.endpoint) || !(strOptTruthy cfg.apiKey)) = true
  · simp [hc, errObj, serializable, serializableMems]
  · simp only [Bool.not_eq_true] at hc
    cases outcome with
    | requestError m => simp [hc, errObj, serializable, serializableMems]
    | otherError m => simp [hc, errObj, serializable, serializableMems]
    | success resp =>
      by_cases h4 : 400 ≤ resp.status_code
      · simp [hc, h4, errObj, serializable, serializableMems]
      · by_cases h204 : resp.status_code = 204
        · simp [hc, h4, h204, warnObj, serializable, serializableMems]
        · by_cases hct : ctContainsJson resp.contentType = true
          · cases hl : loads resp.text with
            | none =>
              simp [hc, h4, h204, hct, hl, errObj, serializable, serializableMems]
            | some body =>
              simp only [hc, h4, h204, hct, hl]
              simpa [hc, h4, h204, hct, hl] using loads_serializable _ _ hl
          · simp [hc, h4, h204, hct, errObj, serializable, serializableMems]

/- ## Server-level helper lemmas -/

/-- With the endpoint or the key falsy, the helper returns the configuration
error untouched: no request, caller's dictionary unchanged. -/
theorem query_config_missing (cfg : Config) (verb table : String)
    (params : Option Filters) (outcome : HttpOutcome)
    (h : strOptTruthy cfg.endpoint = false ∨ strOptTruthy cfg.apiKey = false) :
    querySuzieqApi cfg verb table params outcome =
      { result := errObj configErrorMsg, request := none, callerParams := params } := by
  unfold querySuzieqApi
  rcases h with h | h <;> simp [h]

/-- With both configuration values truthy, the request and the caller's
dictionary after the call have their expected shapes. -/
theorem query_ok_parts (cfg : Config) (verb table : String)
    (params : Option Filters) (outcome : HttpOutcome)
    (he : strOptTruthy cfg.endpoint = true) (hk : strOptTruthy cfg.apiKey = true) :
    (querySuzieqApi cfg verb table params outcome).request =
      some (requestOf cfg verb table params) ∧
    (querySuzieqApi cfg verb table params outcome).callerParams =
      callerAfterParams (requestOf cfg verb table params).params params := by
  unfold querySuzieqApi
  simp [he, hk]

/-- The parameter dictionary of the issued request is the injected one. -/
theorem requestOf_params (cfg : Config) (verb table : String)
    (params : Option Filters) :
    (requestOf cfg verb table params).params =
      injectParams (cfg.apiKey.getD "") (baseParams params) := rfl

/-- The two injected parameters look up to their injected values. -/
theorem injectParams_lookup (key : String) (d : Filters) :
    dictLookup (injectParams key d) "access_token" = some (.str key) ∧
    dictLookup (injectParams key d) "format" = some (.str "json") := by
  constructor
  · unfold injectParams
    rw [dictLookup_dictSet_other _ _ _ _ (by decide)]
    exact dictLookup_dictSet_self _ _ _
  · exact dictLookup_dictSet_self _ _ _

/-- Injection leaves every other key's binding unchanged. -/
theorem injectParams_lookup_other (key k : String) (d : Filters)
    (h1 : k ≠ "access_token") (h2 : k ≠ "format") :
    dictLookup (injectParams key d) k = dictLookup d k := by
  unfold injectParams
  rw [dictLookup_dictSet_other _ _ _ _ h2, dictLookup_dictSet_other _ _ _ _ h1]

/-- A serialisable result is rendered by the indent-2 serialiser. -/
theorem serializeResult_of_serializable (toolName : String) (v : PyObj)
    (hs : serializable v = true) :
    serializeResult toolName v = ⟨dumpsChars 0 v⟩ := by
  simp [serializeResult, dumps_eq v hs]

/-- The text a tool serialises from a serialisable result parses back to it. -/
theorem serializeResult_loads (toolName : String) (v : PyObj)
    (hs : serializable v = true) :
    loads (serializeResult toolName v) = some v := by
  rw [serializeResult_of_serializable toolName v hs]
  exact loads_dumpsChars v hs

/-- A wrapper's filters argument that is not a dict normalises to `None`. -/
theorem actualFilters_nondict (v : PyObj) (h : isDictVal v = false) :
    actualFilters (some v) = none := by
  cases v <;> simp_all [actualFilters, isDictVal]

/- ## Claim theorems -/

/-- Claim C1: every outbound request the query helper issues carries the
injected parameters `access_token` (bound to the configured API key) and
`format` (bound to `"json"`), whatever filters the caller supplied; a
caller-supplied filter under either key is overwritten, not able to remove
the injection. -/
theorem claim_C1_injected_params_win (cfg : Config) (verb table : String)
    (params : Option Filters) (outcome : HttpOutcome) (req : Request)
    (h : (querySuzieqApi cfg verb table params outcome).request = some req) :
    dictLookup req.params "access_token" = some (.str (cfg.apiKey.getD "")) ∧
    dictLookup req.params "format" = some (.str "json") := by
  by_cases he : strOptTruthy cfg.endpoint = true
  · by_cases hk : strOptTruthy cfg.apiKey = true
    · obtain ⟨hreq, -⟩ := query_ok_parts cfg verb table params outcome he hk
      rw [h, Option.some.injEq] at hreq
      rw [hreq, requestOf_params]
      exact injectParams_lookup _ _
    · rw [query_config_missing cfg verb table params outcome
        (Or.inr (by simpa using hk))] at h
      exact absurd h (by simp)
  · rw [query_config_missing cfg verb table params outcome
      (Or.inl (by simpa using he))] at h
    exact absurd h (by simp)

/-- Witness for C1: a caller trying to overwrite both injected keys still
ends up with the configured key and the json format in the request. -/
theorem claim_C1_witness :
    (querySuzieqApi ⟨some "https://api.example.com", some "KEY123"⟩ "show" "device"
        (some [("access_token", PyObj.str "EVIL"), ("format", PyObj.str "xml"),
          ("hostname", PyObj.str "leaf01")])
        (.requestError "boom")).request =
      some { method := "GET", url := "https://api.example.com/device/show",
             params := [("access_token", PyObj.str "KEY123"), ("format", PyObj.str "json"),
               ("hostname", PyObj.str "leaf01")], timeoutSecs := 30 } ∧
    dictLookup [("access_token", PyObj.str "KEY123"), ("format", PyObj.str "json"),
        ("hostname", PyObj.str "leaf01")] "access_token" = some (PyObj.str "KEY123") ∧
    dictLookup [("access_token", PyObj.str "KEY123"), ("format", PyObj.str "json"),
        ("hostname", PyObj.str "leaf01")] "format" = some (PyObj.str "json") :=
  ⟨rfl,
    claim_C1_injected_params_win ⟨some "https://api.example.com", some "KEY123"⟩
      "show" "device"
      (some [("access_token", PyObj.str "EVIL"), ("format", PyObj.str "xml"),
        ("hostname", PyObj.str "leaf01")])
      (.requestError "boom") _ rfl⟩

/-- Claim C2: a non-mapping filters argument to either tool behaves exactly
as an omitted one — same tool result in full — and the outbound parameter
set of such a call is exactly the two injected parameters.  No exception
reaches the caller: the embedded wrappers are total functions. -/
theorem claim_C2_nonmapping_filters (cfg : Config) (table : String) (v : PyObj)
    (outcome : HttpOutcome) (hd : isDictVal v = false) :
    runSuzieqShow cfg table (some v) outcome = runSuzieqShow cfg table none outcome ∧
    runSuzieqSummarize cfg table (some v) outcome =
      runSuzieqSummarize cfg table none outcome ∧
    (∀ req, (runSuzieqShow cfg table (some v) outcome).call.request = some req →
      req.params = [("access_token", PyObj.str (cfg.apiKey.getD "")),
        ("format", PyObj.str "json")]) := by
  have ha := actualFilters_nondict v hd
  refine ⟨by simp only [runSuzieqShow, ha, show actualFilters none = none from rfl],
    by simp only [runSuzieqSummarize, ha, show actualFilters none = none from rfl], ?_⟩
  intro req h
  simp only [runSuzieqShow, ha] at h
  by_cases he : strOptTruthy cfg.endpoint = true
  · by_cases hk : strOptTruthy cfg.apiKey = true
    · obtain ⟨hreq, -⟩ := query_ok_parts cfg "show" table none outcome he hk
      rw [h, Option.some.injEq] at hreq
      rw [hreq, requestOf_params]
      simp [baseParams, injectParams, dictSet,
        (by decide : ¬ (("access_token" : String) = "format"))]
    · rw [query_config_missing cfg "show" table none outcome
        (Or.inr (by simpa using hk))] at h
      exact absurd h (by simp)
  · rw [query_config_missing cfg "show" table none outcome
      (Or.inl (by simpa using he))] at h
    exact absurd h (by simp)

/-- Witness for C2: a plain non-empty string as filters. -/
theorem claim_C2_witness :
    isDictVal (PyObj.str "hostname=leaf01") = false ∧
    runSuzieqShow ⟨some "https://api.example.com", some "KEY123"⟩ "device"
        (some (PyObj.str "hostname=leaf01")) (.requestError "boom") =
      runSuzieqShow ⟨some "https://api.example.com", some "KEY123"⟩ "device"
        none (.requestError "boom") :=
  ⟨rfl,
    (claim_C2_nonmapping_filters ⟨some "https://api.example.com", some "KEY123"⟩
      "device" (PyObj.str "hostname=leaf01") (.requestError "boom") rfl).1⟩

/-- Claim C3: every helper call lands in exactly one of the three terminal
shapes — the decoded remote body passed through, a single-key error mapping,
or a single-key warning mapping — as classified by `branchOf`; totality of
the embedded function is the no-call-terminates-without-returning half. -/
theorem claim_C3_result_trichotomy (cfg : Config) (verb table : String)
    (params : Option Filters) (outcome : HttpOutcome) :
    ∃ b : Branch, branchOf cfg outcome = b ∧
      (∀ b2 : Branch, branchOf cfg outcome = b2 → b2 = b) ∧
      (match b with
       | .ok => ∃ resp body, outcome = .success resp ∧ loads resp.text = some body ∧
           (querySuzieqApi cfg verb table params outcome).result = body
       | .err => ∃ m, (querySuzieqApi cfg verb table params outcome).result = errObj m
       | .warn => ∃ m, (querySuzieqApi cfg verb table params outcome).result = warnObj m) := by
  by_cases hcfg : (!(strOptTruthy cfg.endpoint) || !(strOptTruthy cfg.apiKey)) = true
  · have hbr : branchOf cfg outcome = .err := by simp [branchOf, hcfg]
    have hres : (querySuzieqApi cfg verb table params outcome).result =
        errObj configErrorMsg := by
      simp [querySuzieqApi, hcfg]
    exact ⟨.err, hbr, fun b2 h2 => h2.symm.trans hbr, ⟨configErrorMsg, hres⟩⟩
  · simp only [Bool.not_eq_true] at hcfg
    cases outcome with
    | requestError m =>
      have hbr : branchOf cfg (.requestError m) = .err := by simp [branchOf, hcfg]
      refine ⟨.err, hbr, fun b2 h2 => h2.symm.trans hbr,
        ⟨requestErrMsg (fullUrl (requestOf cfg verb table params)) m, ?_⟩⟩
      simp [querySuzieqApi, hcfg]
    | otherError m =>
      have hbr : branchOf cfg (.otherError m) = .err := by simp [branchOf, hcfg]
      refine ⟨.err, hbr, fun b2 h2 => h2.symm.trans hbr, ⟨unexpectedErrMsg m, ?_⟩⟩
      simp [querySuzieqApi, hcfg]
    | success resp =>
      by_cases h4 : 400 ≤ resp.status_code
      · have hbr : branchOf cfg (.success resp) = .err := by simp [branchOf, hcfg, h4]
        refine ⟨.err, hbr, fun b2 h2 => h2.symm.trans hbr,
          ⟨httpErrMsg resp.status_code resp.text, ?_⟩⟩
        simp [querySuzieqApi, hcfg, h4]
      · by_cases h204 : resp.status_code = 204
        · have hbr : branchOf cfg (.success resp) = .warn := by
            simp [branchOf, hcfg, h4, h204]
          refine ⟨.warn, hbr, fun b2 h2 => h2.symm.trans hbr,
            ⟨emptyWarnMsg verb table, ?_⟩⟩
          simp [querySuzieqApi, hcfg, h4, h204]
        · by_cases hct : ctContainsJson resp.contentType = true
          · cases hl : loads resp.text with
            | some body =>
              have hbr : branchOf cfg (.success resp) = .ok := by
                simp [branchOf, hcfg, h4, h204, hct, hl]
              refine ⟨.ok, hbr, fun b2 h2 => h2.symm.trans hbr, ⟨resp, body, rfl, hl, ?_⟩⟩
              simp [querySuzieqApi, hcfg, h4, h204, hct, hl]
            | none =>
              have hbr : branchOf cfg (.success resp) = .err := by
                simp [branchOf, hcfg, h4, h204, hct, hl]
              refine ⟨.err, hbr, fun b2 h2 => h2.symm.trans hbr,
                ⟨decodeErrMsg resp.text, ?_⟩⟩
              simp [querySuzieqApi, hcfg, h4, h204, hct, hl]
          · have hbr : branchOf cfg (.success resp) = .err := by
              simp [branchOf, hcfg, h4, h204, hct]
            refine ⟨.err, hbr, fun b2 h2 => h2.symm.trans hbr,
              ⟨ctErrMsg resp.contentType resp.text, ?_⟩⟩
            simp [querySuzieqApi, hcfg, h4, h204, hct]

/-- Witness for C3: the trichotomy at a concrete transport failure. -/
theorem claim_C3_witness :
    ∃ b : Branch,
      branchOf ⟨some "https://api.example.com", some "KEY123"⟩ (.requestError "boom") = b ∧
      (∀ b2 : Branch,
        branchOf ⟨some "https://api.example.com", some "KEY123"⟩ (.requestError "boom") = b2 →
          b2 = b) ∧
      (match b with
       | .ok => ∃ resp body, (HttpOutcome.requestError "boom") = .success resp ∧
           loads resp.text = some body ∧
           (querySuzieqApi ⟨some "https://api.example.com", some "KEY123"⟩ "show" "device"
               none (.requestError "boom")).result = body
       | .err => ∃ m, (querySuzieqApi ⟨some "https://api.example.com", some "KEY123"⟩
           "show" "device" none (.requestError "boom")).result = errObj m
       | .warn => ∃ m, (querySuzieqApi ⟨some "https://api.example.com", some "KEY123"⟩
           "show" "device" none (.requestError "boom")).result = warnObj m) :=
  claim_C3_result_trichotomy ⟨some "https://api.example.com", some "KEY123"⟩
    "show" "device" none (.requestError "boom")

/-- Claim C4: with the endpoint or key unset (or empty), the helper returns
the configuration error mapping, whose text contains the word "configured",
and issues no network request. -/
theorem claim_C4_config_missing (cfg : Config) (verb table : String)
    (params : Option Filters) (outcome : HttpOutcome)
    (h : strOptTruthy cfg.endpoint = false ∨ strOptTruthy cfg.apiKey = false) :
    (querySuzieqApi cfg verb table params outcome).result = errObj configErrorMsg ∧
    (∃ pre post, configErrorMsg = pre ++ "configured" ++ post) ∧
    (querySuzieqApi cfg verb table params outcome).request = none := by
  rw [query_config_missing cfg verb table params outcome h]
  exact ⟨rfl,
    ⟨"SuzieQ API endpoint or key not ",
      ". Set SUZIEQ_API_ENDPOINT and SUZIEQ_API_KEY environment variables or in .env file.",
      rfl⟩,
    rfl⟩

/-- Witness for C4: endpoint unset. -/
theorem claim_C4_witness :
    (querySuzieqApi ⟨none, some "KEY123"⟩ "show" "device" none
        (.requestError "never sent")).result = errObj configErrorMsg ∧
    (∃ pre post, configErrorMsg = pre ++ "configured" ++ post) ∧
    (querySuzieqApi ⟨none, some "KEY123"⟩ "show" "device" none
        (.requestError "never sent")).request = none :=
  claim_C4_config_missing ⟨none, some "KEY123"⟩ "show" "device" none
    (.requestError "never sent") (Or.inl rfl)

/-- Claim C5: a 4xx/5xx response yields an error mapping whose text contains
the decimal status code and the response body text. -/
theorem claim_C5_http_error (cfg : Config) (verb table : String)
    (params : Option Filters) (resp : Response)
    (he : strOptTruthy cfg.endpoint = true) (hk : strOptTruthy cfg.apiKey = true)
    (h4 : 400 ≤ resp.status_code) (h5 : resp.status_code ≤ 599) :
    (querySuzieqApi cfg verb table params (.success resp)).result =
      errObj (httpErrMsg resp.status_code resp.text) ∧
    (∃ pre post, httpErrMsg resp.status_code resp.text =
        pre ++ toString resp.status_code ++ post) ∧
    (∃ pre, httpErrMsg resp.status_code resp.text = pre ++ resp.text) := by
  refine ⟨?_, ⟨"HTTP error occurred: ", " - " ++ resp.text, ?_⟩,
    ⟨"HTTP error occurred: " ++ toString resp.status_code ++ " - ", rfl⟩⟩
  · simp [querySuzieqApi, he, hk, h4]
  · simp [httpErrMsg, String.append_assoc]

/-- Witness for C5: a 500 with a body. -/
theorem claim_C5_witness :
    (querySuzieqApi ⟨some "https://api.example.com", some "KEY123"⟩ "show" "device" none
        (.success ⟨500, "text/plain", "Internal Server Error"⟩)).result =
      errObj (httpErrMsg 500 "Internal Server Error") ∧
    (∃ pre post, httpErrMsg 500 "Internal Server Error" = pre ++ toString 500 ++ post) ∧
    (∃ pre, httpErrMsg 500 "Internal Server Error" = pre ++ "Internal Server Error") :=
  claim_C5_http_error ⟨some "https://api.example.com", some "KEY123"⟩ "show" "device" none
    ⟨500, "text/plain", "Internal Server Error"⟩ rfl rfl (by decide) (by decide)

/-- Claim C6: a 204 response yields a warning mapping — whose message names
the verb and table — and never an error mapping; the source checks 204 after
`raise_for_status`, which a 204 passes. -/
theorem claim_C6_204_warning (cfg : Config) (verb table : String)
    (params : Option Filters) (resp : Response)
    (he : strOptTruthy cfg.endpoint = true) (hk : strOptTruthy cfg.apiKey = true)
    (h204 : resp.status_code = 204) :
    (querySuzieqApi cfg verb table params (.success resp)).result =
      warnObj (emptyWarnMsg verb table) ∧
    emptyWarnMsg verb table =
      "Received empty response (204 No Content) from SuzieQ API for " ++
        verb ++ " " ++ table ∧
    (∀ m, (querySuzieqApi cfg verb table params (.success resp)).result ≠ errObj m) := by
  have hres : (querySuzieqApi cfg verb table params (.success resp)).result =
      warnObj (emptyWarnMsg verb table) := by
    simp [querySuzieqApi, he, hk, h204]
  refine ⟨hres, rfl, ?_⟩
  intro m hcontra
  rw [hres] at hcontra
  simp [warnObj, errObj] at hcontra

/-- Witness for C6: a concrete 204. -/
theorem claim_C6_witness :
    (querySuzieqApi ⟨some "https://api.example.com", some "KEY123"⟩ "show" "device" none
        (.success ⟨204, "", ""⟩)).result = warnObj (emptyWarnMsg "show" "device") ∧
    emptyWarnMsg "show" "device" =
      "Received empty response (204 No Content) from SuzieQ API for " ++
        "show" ++ " " ++ "device" ∧
    (∀ m, (querySuzieqApi ⟨some "https://api.example.com", some "KEY123"⟩ "show" "device"
        none (.success ⟨204, "", ""⟩)).result ≠ errObj m) :=
  claim_C6_204_warning ⟨some "https://api.example.com", some "KEY123"⟩ "show" "device"
    none ⟨204, "", ""⟩ rfl rfl rfl

/-- Claim C7: on a successful JSON response, the text either tool returns
parses back to exactly the remote API's decoded body — the pass-through
round trip `decode(serialize(decode(body))) = decode(body)`. -/
theorem claim_C7_passthrough_roundtrip (cfg : Config) (table : String)
    (filters : Option PyObj) (resp : Response) (body : PyObj)
    (he : strOptTruthy cfg.endpoint = true) (hk : strOptTruthy cfg.apiKey = true)
    (hlt : resp.status_code < 400) (h204 : resp.status_code ≠ 204)
    (hct : ctContainsJson resp.contentType = true)
    (hl : loads resp.text = some body) :
    loads (runSuzieqShow cfg table filters (.success resp)).output = some body ∧
    loads (runSuzieqSummarize cfg table filters (.success resp)).output = some body := by
  have hser := loads_serializable _ _ hl
  have hres : ∀ verb, (querySuzieqApi cfg verb table (actualFilters filters)
      (.success resp)).result = body := by
    intro verb
    simp [querySuzieqApi, he, hk, (by omega : ¬ 400 ≤ resp.status_code), h204, hct, hl]
    intro hc
    exact absurd hc (by omega)
  constructor
  · simp only [runSuzieqShow, hres "show"]
    exact serializeResult_loads "show" body hser
  · simp only [runSuzieqSummarize, hres "summarize"]
    exact serializeResult_loads "summarize" body hser

/-- Witness for C7: a concrete JSON body round-trips through the tool. -/
theorem claim_C7_witness :
    loads (runSuzieqShow ⟨some "https://api.example.com", some "KEY123"⟩ "device" none
        (.success ⟨200, "application/json", "[1, 2]"⟩)).output =
      some (PyObj.arr [PyObj.int 1, PyObj.int 2]) ∧
    loads (runSuzieqSummarize ⟨some "https://api.example.com", some "KEY123"⟩ "device" none
        (.success ⟨200, "application/json", "[1, 2]"⟩)).output =
      some (PyObj.arr [PyObj.int 1, PyObj.int 2]) :=
  claim_C7_passthrough_roundtrip ⟨some "https://api.example.com", some "KEY123"⟩
    "device" none ⟨200, "application/json", "[1, 2]"⟩
    (PyObj.arr [PyObj.int 1, PyObj.int 2]) rfl rfl (by decide) (by decide) rfl rfl

/-- Claim C8: both tool entry points are total — every call, whatever the
table, filters value, or remote/transport outcome, returns a string that is
well-formed JSON (no exception escapes the embedded wrappers, whose every
branch returns) — and if serialising a result fails, the wrapper returns the
compact single-key error document instead of raising. -/
theorem claim_C8_tool_never_raises (cfg : Config) (table : String)
    (filters : Option PyObj) (outcome : HttpOutcome) :
    (∃ v, loads (runSuzieqShow cfg table filters outcome).output = some v) ∧
    (∃ v, loads (runSuzieqSummarize cfg table filters outcome).output = some v) ∧
    (∀ v, dumps v = none →
      serializeResult "show" v = serErrJson (serErrMsg "show") ∧
      serializeResult "summarize" v = serErrJson (serErrMsg "summarize") ∧
      loads (serErrJson (serErrMsg "show")) = some (errObj (serErrMsg "show")) ∧
      loads (serErrJson (serErrMsg "summarize")) = some (errObj (serErrMsg "summarize"))) := by
  refine ⟨⟨(querySuzieqApi cfg "show" table (actualFilters filters) outcome).result, ?_⟩,
    ⟨(querySuzieqApi cfg "summarize" table (actualFilters filters) outcome).result, ?_⟩, ?_⟩
  · simp only [runSuzieqShow]
    exact serializeResult_loads "show" _
      (query_result_serializable cfg "show" table (actualFilters filters) outcome)
  · simp only [runSuzieqSummarize]
    exact serializeResult_loads "summarize" _
      (query_result_serializable cfg "summarize" table (actualFilters filters) outcome)
  · intro v hv
    exact ⟨by simp [serializeResult, hv], by simp [serializeResult, hv], rfl, rfl⟩

/-- Witness for C8: a non-serialisable result triggers the compact error
document on both tools. -/
theorem claim_C8_witness :
    serializeResult "show" (PyObj.nonser "dataframe") = serErrJson (serErrMsg "show") ∧
    serializeResult "summarize" (PyObj.nonser "dataframe") =
      serErrJson (serErrMsg "summarize") ∧
    loads (serErrJson (serErrMsg "show")) = some (errObj (serErrMsg "show")) ∧
    loads (serErrJson (serErrMsg "summarize")) = some (errObj (serErrMsg "summarize")) :=
  (claim_C8_tool_never_raises ⟨some "https://api.example.com", some "KEY123"⟩ "device"
      none (.otherError "boom")).2.2 (PyObj.nonser "dataframe")
    (by simp [dumps, serializable])

/-- Claim C9: the target URL is the configured endpoint with trailing
slashes removed followed by the table and verb path segments, and the spec's concrete
example issues exactly `GET https://api.example.com/device/show?hostname=
leaf01&access_token=KEY123&format=json`. -/
theorem claim_C9_url_construction :
    (∀ (cfg : Config) (verb table : String) (params : Option Filters)
        (outcome : HttpOutcome) (req : Request),
        (querySuzieqApi cfg verb table params outcome).request = some req →
        req.method = "GET" ∧
        req.url = rstripSlash (cfg.endpoint.getD "") ++ "/" ++ table ++ "/" ++ verb) ∧
    ((querySuzieqApi ⟨some "https://api.example.com", some "KEY123"⟩ "show" "device"
        (some [("hostname", PyObj.str "leaf01")]) (.requestError "boom")).request.map
        (fun r => (r.method, fullUrl r)) =
      some ("GET",
        "https://api.example.com/device/show?hostname=leaf01&access_token=KEY123&format=json")) := by
  refine ⟨?_, rfl⟩
  intro cfg verb table params outcome req h
  by_cases he : strOptTruthy cfg.endpoint = true
  · by_cases hk : strOptTruthy cfg.apiKey = true
    · obtain ⟨hreq, -⟩ := query_ok_parts cfg verb table params outcome he hk
      rw [h, Option.some.injEq] at hreq
      rw [hreq]
      exact ⟨rfl, rfl⟩
    · rw [query_config_missing cfg verb table params outcome
        (Or.inr (by simpa using hk))] at h
      exact absurd h (by simp)
  · rw [query_config_missing cfg verb table params outcome
      (Or.inl (by simpa using he))] at h
    exact absurd h (by simp)

/-- Witness for C9: the URL shape at the concrete request of the example. -/
theorem claim_C9_witness :
    (requestOf ⟨some "https://api.example.com/", some "KEY123"⟩ "show" "device"
        (some [("hostname", PyObj.str "leaf01")])).method = "GET" ∧
    (requestOf ⟨some "https://api.example.com/", some "KEY123"⟩ "show" "device"
        (some [("hostname", PyObj.str "leaf01")])).url =
      rstripSlash ((⟨some "https://api.example.com/", some "KEY123"⟩ : Config).endpoint.getD "")
        ++ "/" ++ "device" ++ "/" ++ "show" :=
  claim_C9_url_construction.1 ⟨some "https://api.example.com/", some "KEY123"⟩
    "show" "device" (some [("hostname", PyObj.str "leaf01")]) (.requestError "boom") _ rfl

/-- Claim C10 is false as stated: it asserts the mutation for every call
with a non-empty filters mapping, but when the configuration is missing the
helper returns at line 41, before lines 50-52 run, and the caller's mapping
is untouched — in particular it still lacks `access_token`. -/
theorem claim_C10_counterexample :
    (querySuzieqApi ⟨none, some "KEY123"⟩ "show" "device"
        (some [("hostname", PyObj.str "leaf01")]) (.requestError "boom")).callerParams =
      some [("hostname", PyObj.str "leaf01")] ∧
    dictLookup [("hostname", PyObj.str "leaf01")] "access_token" = none :=
  ⟨rfl, rfl⟩

/-- Claim C10 as amended: provided the endpoint and key are configured,
every call passing a non-empty filters mapping mutates that mapping in
place: afterwards it holds `access_token` bound to the configured key and
`format` bound to `"json"`, with every other original entry preserved. -/
theorem claim_C10_amended_mutation (cfg : Config) (verb table : String) (d : Filters)
    (outcome : HttpOutcome)
    (he : strOptTruthy cfg.endpoint = true) (hk : strOptTruthy cfg.apiKey = true)
    (hne : d ≠ []) :
    (querySuzieqApi cfg verb table (some d) outcome).callerParams =
      some (injectParams (cfg.apiKey.getD "") d) ∧
    dictLookup (injectParams (cfg.apiKey.getD "") d) "access_token" =
      some (PyObj.str (cfg.apiKey.getD "")) ∧
    dictLookup (injectParams (cfg.apiKey.getD "") d) "format" = some (PyObj.str "json") ∧
    (∀ k, k ≠ "access_token" → k ≠ "format" →
      dictLookup (injectParams (cfg.apiKey.getD "") d) k = dictLookup d k) := by
  have hemp : d.isEmpty = false := by
    cases d with
    | nil => exact absurd rfl hne
    | cons a t => rfl
  obtain ⟨-, hcall⟩ := query_ok_parts cfg verb table (some d) outcome he hk
  refine ⟨?_, (injectParams_lookup _ _).1, (injectParams_lookup _ _).2,
    fun k h1 h2 => injectParams_lookup_other _ _ _ h1 h2⟩
  rw [hcall, requestOf_params]
  simp [callerAfterParams, baseParams, hemp]

/-- Witness for the amended C10: a configured call with one filter entry. -/
theorem claim_C10_witness :
    (querySuzieqApi ⟨some "https://api.example.com", some "KEY123"⟩ "show" "device"
        (some [("hostname", PyObj.str "leaf01")]) (.requestError "boom")).callerParams =
      some (injectParams "KEY123" [("hostname", PyObj.str "leaf01")]) ∧
    dictLookup (injectParams "KEY123" [("hostname", PyObj.str "leaf01")]) "access_token" =
      some (PyObj.str "KEY123") ∧
    dictLookup (injectParams "KEY123" [("hostname", PyObj.str "leaf01")]) "format" =
      some (PyObj.str "json") ∧
    (∀ k, k ≠ "access_token" → k ≠ "format" →
      dictLookup (injectParams "KEY123" [("hostname", PyObj.str "leaf01")]) k =
        dictLookup [("hostname", PyObj.str "leaf01")] k) :=
  claim_C10_amended_mutation ⟨some "https://api.example.com", some "KEY123"⟩ "show"
    "device" [("hostname", PyObj.str "leaf01")] (.requestError "boom") rfl rfl
    (by simp)

end SuzieqMCP
